import Mathlib

/-!
Verification development for the FlopsMobile streaming chat client.

The definitions below are a shallow embedding of the streaming-chat core of
the repository: the SSE frame handling of `streamChat`
(src/src/utils/httpDebugLog.ts), and the turn accumulator, stream controller
finalization and history reconciliation of `ChatScreen`
(src/src/screens/ChatScreen.tsx).  JavaScript runtime values are modelled as
follows: possibly-absent (`undefined`/missing) fields become `Option`,
arbitrary JSON values become the inductive `Json` (numbers restricted to
integers; no claim involves non-integer numbers), JavaScript string
truthiness (`x || d`, `x ?? d`) becomes the explicit helpers `jsStringOr` /
`jsNullish`, and a thrown exception becomes an `Except` error result.
The platform builtin `JSON.parse` is kept abstract: functions that call it
take a `parse : String → Option Json` (or `String → Option ChatStreamEvent`)
parameter, `none` standing for a parse failure (a throw).
-/

namespace FlopsMobile

/-- A JSON value, as produced by the platform JSON parser.  Numbers are
restricted to integers; no claim here depends on non-integer numbers. -/
inductive Json where
  | null
  | bool (b : Bool)
  | num (n : Int)
  | str (s : String)
  | arr (elems : List Json)
  | obj (fields : List (String × Json))

/-- Minimal escaping used when rendering a JSON string literal. -/
def escapeJsonChar (c : Char) : String :=
  if c = '"' then "\\\"" else if c = '\\' then "\\\\" else if c = '\n' then "\\n"
  else String.singleton c

/-- Render a string as a JSON string literal. -/
def escapeJson (s : String) : String :=
  String.join (s.toList.map escapeJsonChar)

mutual

/-- Model of `JSON.stringify` on the `Json` values above. -/
def renderJson : Json → String
  | .null => "null"
  | .bool true => "true"
  | .bool false => "false"
  | .num n => toString n
  | .str s => "\"" ++ escapeJson s ++ "\""
  | .arr es => "[" ++ renderJsonList es ++ "]"
  | .obj fs => "\x7b" ++ renderJsonFields fs ++ "\x7d"

/-- Comma-separated rendering of a JSON array body. -/
def renderJsonList : List Json → String
  | [] => ""
  | [j] => renderJson j
  | j :: js => renderJson j ++ "," ++ renderJsonList js

/-- Comma-separated rendering of a JSON object body. -/
def renderJsonFields : List (String × Json) → String
  | [] => ""
  | [(k, j)] => "\"" ++ escapeJson k ++ "\":" ++ renderJson j
  | (k, j) :: fs => "\"" ++ escapeJson k ++ "\":" ++ renderJson j ++ "," ++ renderJsonFields fs

end

/-- The tool variant of `StreamBlock` in ChatScreen.tsx.  `status` is a plain
string there, so it is a `String` here; fields the code may leave
`undefined` are `Option`s defaulting to `none`. -/
structure ToolBlock where
  tool_name : Option String := none
  status : String
  arguments : Option String := none
  streaming_content : Option String := none
  result : Option Json := none
  review_id : Option String := none
  conversation_id : Option String := none
  review : Option Json := none
  command : Option String := none
  cwd : Option String := none

/-- `StreamBlock` of ChatScreen.tsx: a text span or a tool invocation. -/
inductive StreamBlock where
  | text (content : String)
  | tool (b : ToolBlock)

/-- Status of the tool block at position `i`, if there is one. -/
def statusAt (bs : List StreamBlock) (i : Nat) : Option String :=
  match bs[i]? with
  | some (.tool t) => some t.status
  | _ => none

/-- The flattened text of a block list: `syncBlocks` computes
`blocks.filter(text).map(content).join('')`. -/
def finalTextOf : List StreamBlock → String
  | [] => ""
  | .text c :: bs => c ++ finalTextOf bs
  | .tool _ :: bs => finalTextOf bs

/-- One decoded SSE event object (`ChatStreamEvent` in the api client).  The
wire value is loose JSON, so every field is optional, matching what the
`onEvent` handler probes at runtime. -/
structure ChatStreamEvent where
  type : Option String := none
  tool_name : Option String := none
  arguments : Option String := none
  chunk : Option String := none
  result : Option Json := none
  review_id : Option String := none
  conversation_id : Option String := none
  review : Option Json := none
  command : Option String := none
  cwd : Option String := none
  content : Option String := none
  error : Option String := none
  done : Option Bool := none

/-- JavaScript `String(x || d)` for a possibly-absent string `x`: the empty
string is falsy, so both `undefined` and `""` fall back to `d`. -/
def jsStringOr (o : Option String) (d : String) : String :=
  match o with
  | some s => if s = "" then d else s
  | none => d

/-- JavaScript `a ?? b` on possibly-absent strings (nullish coalescing: only
`undefined`/`null` falls through, the empty string does not). -/
def jsNullish (a b : Option String) : Option String :=
  match a with
  | some s => some s
  | none => b

/-- Whitespace as trimmed by the JavaScript string methods (the ASCII
whitespace the client's payloads contain). -/
def jsWhitespaceChar (c : Char) : Bool :=
  c == ' ' || c == '\t' || c == '\n' || c == '\r'

/-- JavaScript `s.trim()`, stated structurally over the character list. -/
def jsTrim (s : String) : String :=
  ⟨((s.data.dropWhile jsWhitespaceChar).reverse.dropWhile jsWhitespaceChar).reverse⟩

/-- Whether the first list begins with the second. -/
def charsStartWith : List Char → List Char → Bool
  | [], _ => true
  | _ :: _, [] => false
  | p :: ps, c :: cs => p == c && charsStartWith ps cs

/-- JavaScript `s.startsWith(pre)`. -/
def jsStartsWith (s pre : String) : Bool :=
  charsStartWith pre.data s.data

/-- Split a character list at every newline, keeping empty segments. -/
def splitNewlineChars : List Char → List (List Char)
  | [] => [[]]
  | c :: cs =>
    if c == '\n' then [] :: splitNewlineChars cs
    else
      match splitNewlineChars cs with
      | h :: t => (c :: h) :: t
      | [] => [[c]]

/-- JavaScript `s.split('\n')`. -/
def jsSplitNewline (s : String) : List String :=
  (splitNewlineChars s.data).map String.mk

/-- JavaScript `s.slice(n)` (on the single-byte characters of the wire
format). -/
def jsDrop (s : String) (n : Nat) : String :=
  ⟨s.data.drop n⟩

/-- JavaScript `s.length` (on single-byte characters). -/
def jsLength (s : String) : Nat :=
  s.data.length

/-- Forward loop of the accumulator: replace the first block satisfying `p`
by its `f`-image; `none` if no block matches. -/
def replaceFirst? (p : StreamBlock → Bool) (f : StreamBlock → StreamBlock) :
    List StreamBlock → Option (List StreamBlock)
  | [] => none
  | b :: bs =>
    if p b then some (f b :: bs)
    else (replaceFirst? p f bs).map (b :: ·)

/-- Backward loop of the accumulator (`for (i = len-1; i >= 0; i--)`):
replace the last block satisfying `p` by its `f`-image; `none` if no block
matches. -/
def replaceLast? (p : StreamBlock → Bool) (f : StreamBlock → StreamBlock) :
    List StreamBlock → Option (List StreamBlock)
  | [] => none
  | b :: bs =>
    match replaceLast? p f bs with
    | some bs2 => some (b :: bs2)
    | none => if p b then some (f b :: bs) else none

/-- `tool_start` search predicate: a tool block of this name whose status is
not `completed`. -/
def isToolStartMatch (name : String) : StreamBlock → Bool
  | .tool t => t.tool_name == some name && t.status != "completed"
  | _ => false

/-- `tool_stream` search predicate: a `running` tool block of this name. -/
def isToolStreamMatch (name : String) : StreamBlock → Bool
  | .tool t => t.tool_name == some name && t.status == "running"
  | _ => false

/-- `tool_result` / safety search predicate: a tool block whose name equals
the event's `tool_name` (`===`, so an absent name only matches an absent
name). -/
def isToolNameMatch (name : Option String) : StreamBlock → Bool
  | .tool t => t.tool_name == name
  | _ => false

/-- `tool_start` reuse update: status back to `running`, arguments
overwritten with the event's, streaming content reset to empty. -/
def restartTool (args : Option String) : StreamBlock → StreamBlock
  | .tool t => .tool { t with status := "running", arguments := args, streaming_content := some "" }
  | b => b

/-- `tool_stream` update: append the chunk to `streaming_content ?? ''`. -/
def appendChunk (chunk : String) : StreamBlock → StreamBlock
  | .tool t => .tool { t with streaming_content := some ((t.streaming_content.getD "") ++ chunk) }
  | b => b

/-- `tool_result` update: status `completed`, result attached. -/
def completeTool (result : Option Json) : StreamBlock → StreamBlock
  | .tool t => .tool { t with status := "completed", result := result }
  | b => b

/-- `safety_confirmation_required` update on an existing block: status
`awaiting_confirmation` and the review metadata, with
`arguments: event.command ?? event.arguments` and
`conversation_id: event.conversation_id || convId`. -/
def awaitTool (ev : ChatStreamEvent) (convId : String) : StreamBlock → StreamBlock
  | .tool t => .tool { t with
      status := "awaiting_confirmation",
      arguments := jsNullish ev.command ev.arguments,
      review_id := ev.review_id,
      conversation_id := some (jsStringOr ev.conversation_id convId),
      review := ev.review,
      command := ev.command,
      cwd := ev.cwd }
  | b => b

/-- `tool_start` branch of `onEvent`: reuse the first non-completed block of
this name from the start, else append a fresh `running` block. -/
def applyToolStart (name : String) (args : Option String) (bs : List StreamBlock) :
    List StreamBlock :=
  match replaceFirst? (isToolStartMatch name) (restartTool args) bs with
  | some bs2 => bs2
  | none =>
      bs ++ [.tool { tool_name := some name
                     status := "running"
                     arguments := args
                     streaming_content := some "" }]

/-- `tool_stream` branch of `onEvent`: append the chunk to the last running
block of this name; no match drops the chunk. -/
def applyToolStream (name : String) (chunk : String) (bs : List StreamBlock) :
    List StreamBlock :=
  match replaceLast? (isToolStreamMatch name) (appendChunk chunk) bs with
  | some bs2 => bs2
  | none => bs

/-- `tool_result` branch of `onEvent`: complete the last block of this name
(any status); no match drops the result. -/
def applyToolResult (name : Option String) (result : Option Json) (bs : List StreamBlock) :
    List StreamBlock :=
  match replaceLast? (isToolNameMatch name) (completeTool result) bs with
  | some bs2 => bs2
  | none => bs

/-- `safety_confirmation_required` branch of `onEvent`: update the last block
of this name (any status), else push a new awaiting block (pushed without
`arguments`, as in the source). -/
def applySafety (ev : ChatStreamEvent) (convId : String) (bs : List StreamBlock) :
    List StreamBlock :=
  match replaceLast? (isToolNameMatch ev.tool_name) (awaitTool ev convId) bs with
  | some bs2 => bs2
  | none =>
      bs ++ [.tool { tool_name := ev.tool_name
                     status := "awaiting_confirmation"
                     review_id := ev.review_id
                     conversation_id := some (jsStringOr ev.conversation_id convId)
                     review := ev.review
                     command := ev.command
                     cwd := ev.cwd }]

/-- Text-delta branch of `onEvent` (for non-empty content): if the last block
is a text block the content is appended to it, else a new text block is
pushed.  Stated by structural recursion on the block list, which reaches the
same final element the source indexes with `blocks[blocks.length - 1]`. -/
def applyContent : List StreamBlock → String → List StreamBlock
  | [], c => [.text c]
  | [.text t], c => [.text (t ++ c)]
  | [b], c => [b, .text c]
  | b :: bs, c => b :: applyContent bs c

/-- The mutable state the `handleSendMessage` closure threads through
`onEvent`: the learned conversation id, the accumulated blocks, the status
label and the `streamDone` flag. -/
structure TurnState where
  convId : String
  blocks : List StreamBlock
  streamStatus : String
  streamDone : Bool

/-- Initial state of a turn (`setStreamStatus('thinking')`, empty blocks). -/
def emptyTurn : TurnState :=
  { convId := "", blocks := [], streamStatus := "thinking", streamDone := false }

/-- First step of `onEvent`: back-fill the conversation id from the event
when it is still unknown (`event.conversation_id && !convId`). -/
def learnConvId (ev : ChatStreamEvent) (st : TurnState) : TurnState :=
  match ev.conversation_id with
  | some c => if c ≠ "" ∧ st.convId = "" then { st with convId := c } else st
  | none => st

/-- The `event.type` dispatch of `onEvent`. -/
def typeBranch (ev : ChatStreamEvent) (st : TurnState) : TurnState :=
  match ev.type with
  | some "thinking" => { st with streamStatus := "thinking" }
  | some "checking_tools" => { st with streamStatus := "checking_tools" }
  | some "tool_start" =>
      { st with streamStatus := "tool_running",
                blocks := applyToolStart (jsStringOr ev.tool_name "unknown") ev.arguments st.blocks }
  | some "tool_stream" =>
      let chunk := ev.chunk.getD ""
      if chunk ≠ "" then
        { st with blocks := applyToolStream (jsStringOr ev.tool_name "local_cursor_agent") chunk st.blocks }
      else st
  | some "tool_result" =>
      { st with streamStatus := "tool_result",
                blocks := applyToolResult ev.tool_name ev.result st.blocks }
  | some "safety_confirmation_required" =>
      { st with streamStatus := "awaiting_safety_confirmation",
                blocks := applySafety ev st.convId st.blocks }
  | _ => st

/-- The `event.content` branch of `onEvent` (runs after the type dispatch,
only for a non-empty string content). -/
def contentBranch (ev : ChatStreamEvent) (st : TurnState) : TurnState :=
  match ev.content with
  | some c =>
      if jsLength c > 0 then
        { st with streamStatus := "streaming_text", blocks := applyContent st.blocks c }
      else st
  | none => st

/-- The `event.done === true` branch of `onEvent`. -/
def doneBranch (ev : ChatStreamEvent) (st : TurnState) : TurnState :=
  if ev.done = some true then { st with streamDone := true } else st

/-- A present and truthy `error` field (the empty string is falsy). -/
def truthyError (ev : ChatStreamEvent) : Option String :=
  match ev.error with
  | some s => if s ≠ "" then some s else none
  | none => none

/-- The whole `onEvent` handler of `handleSendMessage`: learn the
conversation id, throw on a truthy `error` field (modelled as `Except.error`,
carrying the state at the throw), else run the type, content and done
branches in source order. -/
def onEventTurn (ev : ChatStreamEvent) (st : TurnState) :
    Except (String × TurnState) TurnState :=
  let st1 := learnConvId ev st
  match truthyError ev with
  | some m => .error (m, st1)
  | none => .ok (doneBranch ev (contentBranch ev (typeBranch ev st1)))

/-- The delivery loop of `streamChat`.  The `onEvent(parsed)` call sits
inside the same per-record `try { ... } catch { }` that guards
`JSON.parse`, so a throw from `onEvent` (the server-error path) is
swallowed exactly like a parse failure: the loop keeps the state mutated up
to the throw and continues with the next record — and, the `done` /
`cancelled` checks being placed after the `onEvent` call inside the `try`,
they are skipped for the throwing record.  The loop returns after a
`done: true` or `type: 'cancelled'` record whose `onEvent` call returned
normally. -/
def runEvents : TurnState → List ChatStreamEvent → TurnState
  | st, [] => st
  | st, ev :: rest =>
    match onEventTurn ev st with
    | .error (_, st2) => runEvents st2 rest
    | .ok st2 =>
      if ev.done = some true then st2
      else if ev.type = some "cancelled" then st2
      else runEvents st2 rest

/-- Blocks accumulated after a sequence of events from the empty turn. -/
def blocksAfter (evs : List ChatStreamEvent) : List StreamBlock :=
  (runEvents emptyTurn evs).blocks

/-- A locally rendered chat message (`Message` in ChatScreen.tsx). -/
inductive Message where
  | user (content : String)
  | assistant (content : String) (blocks : Option (List StreamBlock))
  | error (content : String)

/-- The exception reaching the `catch` of `handleSendMessage` /
`handleRegenerate`: an `AbortError` from the aborted fetch, or any other
exception with its message (`e.message` / `String(e)`). -/
inductive ExnKind where
  | abortError
  | other (msg : String)
deriving DecidableEq

/-- The `catch` block of `handleSendMessage`: an `AbortError` while
`manualStopRef.current` commits the partial turn behind a stopped marker;
any other outcome commits an error-role message. -/
def catchCommit (exn : ExnKind) (manualStop : Bool) (finalText : String)
    (localBlocks : List StreamBlock) : Message :=
  if exn = ExnKind.abortError ∧ manualStop then
    let text := jsTrim finalText
    .assistant (if text ≠ "" then "[已停止]\n" ++ text else "[已停止]")
      (if localBlocks.length > 0 then some (.text "[已停止]\n" :: localBlocks) else none)
  else
    .error (match exn with
      | .abortError => "已手动停止本轮执行。"
      | .other m => m)

/-- The success commit of `handleSendMessage`: assistant message with the
trimmed flattened text (placeholder when empty) and the blocks when any. -/
def commitAssistant (finalText : String) (localBlocks : List StreamBlock) : Message :=
  .assistant (if jsTrim finalText ≠ "" then jsTrim finalText else "(empty response)")
    (if localBlocks.length > 0 then some localBlocks else none)

/-- Messages committed when `streamChat` resolves normally: the assistant
message iff `streamDone || finalText.trim()`, nothing otherwise.
(`finalText` always equals the flattened block text, which `syncBlocks`
maintains.) -/
def finalizeSend (st : TurnState) : List Message :=
  let finalText := finalTextOf st.blocks
  if st.streamDone ∨ jsTrim finalText ≠ "" then [commitAssistant finalText st.blocks]
  else []

/-- Messages committed when the abort signal fires (`AbortError` from the
in-flight read): exactly the one message from the `catch` block. -/
def finalizeAborted (manualStop : Bool) (finalText : String)
    (localBlocks : List StreamBlock) : List Message :=
  [catchCommit .abortError manualStop finalText localBlocks]

/-- The message `handleStop` itself commits (before aborting) from its
snapshot of the streaming state. -/
def handleStopMessage (snapshotText : String) (snapshotBlocks : List StreamBlock) : Message :=
  .assistant (if jsTrim snapshotText ≠ "" then "[已停止]\n" ++ jsTrim snapshotText else "[已停止]")
    (some (.text "[已停止]\n" :: snapshotBlocks))

/-- `handleStop` commits its snapshot only when there are blocks or the
snapshot text is non-blank
(`snapshotBlocks.length > 0 || (snapshotText && snapshotText.trim())`). -/
def handleStopCommits (snapshotBlocks : List StreamBlock) (snapshotText : String) :
    List Message :=
  if snapshotBlocks.length > 0 ∨ (snapshotText ≠ "" ∧ jsTrim snapshotText ≠ "") then
    [handleStopMessage snapshotText snapshotBlocks]
  else []

/-- All messages a manual stop commits: what `handleStop` commits, followed
by the `catch`-block commit of the aborted send (manually-stopped flag set;
the closure's `finalText` is the flattened text of its blocks). -/
def manualStopCommits (snapshotBlocks : List StreamBlock) (snapshotText : String)
    (localBlocks : List StreamBlock) : List Message :=
  handleStopCommits snapshotBlocks snapshotText ++
    finalizeAborted true (finalTextOf localBlocks) localBlocks

/-- The hard stream ceiling in milliseconds (`STREAM_TIMEOUT_MS`). -/
def STREAM_TIMEOUT_MS : Nat := 300000

/-- The JSON body POSTed to `{base}api/conversations/{id}/chat`. -/
structure ChatRequestBody where
  message : String
  regenerate : Option Bool := none
  after_user_index : Option Nat := none

/-- `streamChat` builds its request body as `JSON.stringify({ message })`:
only the `message` field, never `regenerate` or `after_user_index`.  Its
signature is `(session, conversationId, message, onEvent, signal?)`. -/
def streamChatRequestBody (message : String) : ChatRequestBody :=
  { message := message }

/-- The body actually sent on regeneration: `handleRegenerate` calls
`streamChat(session, conversationId, '', onEvent, signal, { regenerate:
true, after_user_index: afterUserIndex })`, but `streamChat` has only five
parameters, so the sixth argument is discarded and the wire body is
`streamChat`'s body for the empty message. -/
def handleRegenerateRequestBody (_afterUserIndex : Nat) : ChatRequestBody :=
  streamChatRequestBody ""

/-- The `data:` line of an SSE frame: the first line (after per-line trim)
that starts with `data:`
(`frame.split('\n').map(trim).find(startsWith('data:'))`). -/
def dataLineOf (frame : String) : Option String :=
  ((jsSplitNewline frame).map jsTrim).find? (fun l => jsStartsWith l "data:")

/-- The at-most-one event a frame yields: the `data:` line's payload
(`dataLine.slice(5).trim()`), parsed when non-empty; `none` when the frame
has no `data:` line, an empty payload, or the parse throws (the per-record
`try/catch` swallows the failure). -/
def frameEvent (parse : String → Option ChatStreamEvent) (frame : String) :
    Option ChatStreamEvent :=
  match dataLineOf frame with
  | some dl =>
      let raw := jsTrim (jsDrop dl 5)
      if raw ≠ "" then parse raw else none
  | none => none

/-- The frame loop of `streamChat` over complete frames: deliver each
frame's event (skipping frames that yield none), returning after a
`done: true` or `type: 'cancelled'` event. -/
def processFrames (parse : String → Option ChatStreamEvent) :
    List String → List ChatStreamEvent
  | [] => []
  | f :: rest =>
    match frameEvent parse f with
    | some ev =>
        if ev.done = some true ∨ ev.type = some "cancelled" then [ev]
        else ev :: processFrames parse rest
    | none => processFrames parse rest

/-- The `arguments` field of a persisted tool-call descriptor: a string, a
JSON value, or absent (`null`/`undefined`). -/
inductive ArgVal where
  | str (s : String)
  | jsonv (j : Json)
  | missing

/-- The `function` part of a persisted tool-call descriptor. -/
structure ToolCallFunction where
  name : Option String := none
  arguments : ArgVal := .missing

/-- A persisted tool-call descriptor (`tc.function ? tc.function : {}`). -/
structure ToolCall where
  function : Option ToolCallFunction := none

/-- A server-persisted conversation message (`ConversationMessage`). -/
structure ConversationMessage where
  role : String
  content : Option String := none
  tool_calls : Option (List ToolCall) := none

/-- `parseToolResult`: `null` for a non-tool message or blank content, else
the JSON parse of the content when it succeeds, else the raw string. -/
def parseToolResult (jparse : String → Option Json) (msg : ConversationMessage) : Json :=
  if msg.role ≠ "tool" then .null
  else
    let raw := msg.content.getD ""
    if jsTrim raw = "" then .null
    else
      match jparse raw with
      | some j => j
      | none => .str raw

/-- Effective tool name of a descriptor
(`fn.name != null && fn.name !== '' ? fn.name : 'unknown'`). -/
def toolCallName (tc : ToolCall) : String :=
  match (tc.function.getD {}).name with
  | some s => if s ≠ "" then s else "unknown"
  | none => "unknown"

/-- Effective arguments string of a descriptor (`typeof fn.arguments ===
'string' ? fn.arguments : JSON.stringify(fn.arguments ?? {})`). -/
def toolCallArgs (tc : ToolCall) : String :=
  match (tc.function.getD {}).arguments with
  | .str s => s
  | .jsonv j => renderJson j
  | .missing => renderJson (Json.obj [])

/-- The completed tool block `coalesceAssistantTurn` builds for the `j`-th
tool call, whose result comes from `messages[i + 1 + j]` when that message
exists and has role `tool`, and is `null` otherwise. -/
def historyToolBlock (jparse : String → Option Json) (tc : ToolCall)
    (toolMsg : Option ConversationMessage) : StreamBlock :=
  let result :=
    match toolMsg with
    | some tm => if tm.role = "tool" then parseToolResult jparse tm else Json.null
    | none => Json.null
  .tool { tool_name := some (toolCallName tc)
          status := "completed"
          arguments := some (toolCallArgs tc)
          result := some result }

/-- The tool blocks for a run of tool calls, pairing the `j`-th call with
the `j`-th following message. -/
def historyToolBlocks (jparse : String → Option Json) :
    List ToolCall → List ConversationMessage → List StreamBlock
  | [], _ => []
  | tc :: tcs, rest => historyToolBlock jparse tc rest.head? :: historyToolBlocks jparse tcs rest.tail

/-- The `while` loop of `coalesceAssistantTurn`: an assistant message pushes
its trimmed text (when non-blank) and, when it carries tool calls, one
completed tool block per call, consuming the `N` following messages; other
roles are skipped. -/
def coalesceGo (jparse : String → Option Json) :
    List ConversationMessage → List StreamBlock → String → List StreamBlock × String
  | [], blocks, full => (blocks, full)
  | msg :: rest, blocks, full =>
    if msg.role = "assistant" then
      let text := jsTrim (msg.content.getD "")
      let blocks2 := if text ≠ "" then blocks ++ [.text text] else blocks
      let full2 := if text ≠ "" then (if full ≠ "" then full ++ "\n\n" ++ text else text) else full
      let tcs := msg.tool_calls.getD []
      if tcs.length > 0 then
        coalesceGo jparse (rest.drop tcs.length) (blocks2 ++ historyToolBlocks jparse tcs rest) full2
      else coalesceGo jparse rest blocks2 full2
    else coalesceGo jparse rest blocks full
termination_by msgs _ _ => msgs.length
decreasing_by
  all_goals simp only [List.length_cons, List.length_drop]
  all_goals omega

/-- `coalesceAssistantTurn`: flatten one server-side assistant turn (the
run of `assistant`/`tool` messages) into one local assistant message with
blocks; `null` when the group produces no blocks. -/
def coalesceAssistantTurn (jparse : String → Option Json)
    (messages : List ConversationMessage) : Option Message :=
  if messages.length = 0 then none
  else
    let r := coalesceGo jparse messages [] ""
    if r.1.length = 0 then none
    else some (.assistant (if r.2 ≠ "" then r.2 else "(empty)") (some r.1))

/-- Index of the first block satisfying `p`. -/
def firstMatchIdx (p : StreamBlock → Bool) : List StreamBlock → Option Nat
  | [] => none
  | b :: bs => if p b then some 0 else (firstMatchIdx p bs).map (· + 1)

/-- Apply `f` to the block at index `i`, leaving the rest unchanged. -/
def modifyAt (f : StreamBlock → StreamBlock) : Nat → List StreamBlock → List StreamBlock
  | _, [] => []
  | 0, b :: bs => f b :: bs
  | n + 1, b :: bs => b :: modifyAt f n bs

/-- Modelled from the spec: the `ToolStart` rule stated as the spec words
it — search the blocks from the start for a `ToolBlock` with matching name
whose status is not `completed`; if one is found overwrite it in place (no
new block), and only if none is found append a fresh `running` block. -/
def toolStartSpec (name : String) (args : Option String) (bs : List StreamBlock) :
    List StreamBlock :=
  match firstMatchIdx (isToolStartMatch name) bs with
  | some i => modifyAt (restartTool args) i bs
  | none =>
      bs ++ [.tool { tool_name := some name
                     status := "running"
                     arguments := args
                     streaming_content := some "" }]

/-- A pure text-delta record: only a `content` field. -/
def textDeltaEvent (d : String) : ChatStreamEvent :=
  { content := some d }

/-- A `tool_start` record with a name and optional arguments. -/
def toolStartEvent (n : String) (a : Option String) : ChatStreamEvent :=
  { type := some "tool_start", tool_name := some n, arguments := a }

/-- Concrete `tool_start` record for tool `x`. -/
def evStartX : ChatStreamEvent :=
  { type := some "tool_start", tool_name := some "x" }

/-- Concrete `tool_result` record for tool `x`. -/
def evResultX : ChatStreamEvent :=
  { type := some "tool_result", tool_name := some "x" }

/-- Concrete `safety_confirmation_required` record for tool `x`. -/
def evSafetyX : ChatStreamEvent :=
  { type := some "safety_confirmation_required", tool_name := some "x", review_id := some "r1" }

/-- Concrete record sequence: a text delta, then a server-reported error,
then a done record. -/
def evsErrDone : List ChatStreamEvent :=
  [{ content := some "hi" }, { error := some "boom" }, { done := some true }]

/-- A concrete record parser for witnesses: accepts exactly the payload
`ok` (as a done record) and throws on everything else. -/
def parseW : String → Option ChatStreamEvent :=
  fun s => if s = "ok" then some { done := some true } else none

/-- A concrete JSON parse instance for witnesses: throws on every input.
In particular it rejects the blank string, as `JSON.parse` does. -/
def jparse0 : String → Option Json :=
  fun _ => none

/-- Concrete persisted tool-call descriptor. -/
def tcW : ToolCall :=
  { function := some { name := some "t", arguments := .str "argstr" } }

/-- Concrete persisted tool message with non-blank content. -/
def tmW : ConversationMessage :=
  { role := "tool", content := some "out" }

/-- Concrete persisted assistant message whose content is a single space and
which carries one tool call. -/
def aEx : ConversationMessage :=
  { role := "assistant", content := some " ", tool_calls := some [tcW] }

/-- Concrete persisted tool message whose content is blank (two spaces):
not valid JSON, yet not the raw-string case either. -/
def tmEx : ConversationMessage :=
  { role := "tool", content := some "  " }

/-- Concatenation of a list of strings in order. -/
def concatList : List String → String
  | [] => ""
  | d :: ds => d ++ concatList ds

theorem find?_eq_head?_filter (p : String → Bool) (l : List String) :
    l.find? p = (l.filter p).head? := by
  induction l with
  | nil => rfl
  | cons a l ih =>
    by_cases h : p a
    · rw [List.find?_cons_of_pos _ h, List.filter_cons_of_pos h, List.head?_cons]
    · rw [List.find?_cons_of_neg _ h, List.filter_cons_of_neg h, ih]

/-- C2: regeneration is supposed to POST `{ regenerate: true,
after_user_index }` with an empty message, but `streamChat` has no
parameter for the options object `handleRegenerate` passes, so the body it
builds for a regeneration is `{ message: "" }` with no `regenerate` and no
`after_user_index` field — for every `afterUserIndex`, including 0. -/
theorem regenerate_body_omits_flags :
    (∀ afterUserIndex : Nat,
        handleRegenerateRequestBody afterUserIndex
          = { message := "", regenerate := none, after_user_index := none })
    ∧ (handleRegenerateRequestBody 0).regenerate ≠ some true :=
  ⟨fun _ => rfl, by simp [handleRegenerateRequestBody, streamChatRequestBody]⟩

/-- C3: a manual stop with zero accumulated blocks and empty streamed text
commits exactly one message, an assistant-role message whose text is the
literal stopped marker — not an empty message and not zero messages. -/
theorem manualStop_empty_commits_marker :
    manualStopCommits [] "" [] = [Message.assistant "[已停止]" none] := rfl

/-- C4: the stream ceiling is 300000 ms, and an abort that is not flagged
manually-stopped (the timeout path) commits exactly one error-role message,
never an assistant message — whatever partial text and blocks had
accumulated. -/
theorem timeout_abort_commits_error :
    STREAM_TIMEOUT_MS = 300000
    ∧ ∀ (finalText : String) (localBlocks : List StreamBlock),
        finalizeAborted false finalText localBlocks
          = [Message.error "已手动停止本轮执行。"] :=
  ⟨rfl, fun _ _ => by simp [finalizeAborted, catchCommit]⟩

/-- C8: an SSE record whose `data:` payload fails to parse yields no event
and no escaping exception — the stream simply continues with the remaining
records. -/
theorem malformed_frame_skipped (parse : String → Option ChatStreamEvent)
    (f : String) (rest : List String) (dl : String)
    (h1 : dataLineOf f = some dl) (h2 : parse (jsTrim (jsDrop dl 5)) = none) :
    processFrames parse (f :: rest) = processFrames parse rest := by
  have hfe : frameEvent parse f = none := by
    unfold frameEvent
    rw [h1]
    by_cases h : (jsTrim (jsDrop dl 5)) = "" <;> simp [h, h2]
  simp [processFrames, hfe]

theorem malformed_frame_skipped_witness :
    processFrames parseW ["data: oops", "data: ok"] = processFrames parseW ["data: ok"] :=
  malformed_frame_skipped parseW "data: oops" ["data: ok"] "data: oops" rfl rfl

/-- C10: the frame decoder interprets at most one `data:` line per frame —
`dataLineOf` is the first trimmed line starting with `data:` (any further
`data:` lines are ignored), a frame yields at most one event, and a frame
with two `data:` lines delivers the first payload. -/
theorem frame_single_data_line :
    (∀ frame : String,
        dataLineOf frame
          = (((jsSplitNewline frame).map jsTrim).filter
              (fun l => jsStartsWith l "data:")).head?)
    ∧ (∀ (parse : String → Option ChatStreamEvent) (frame : String),
        (processFrames parse [frame]).length ≤ 1)
    ∧ (∀ parse : String → Option ChatStreamEvent,
        frameEvent parse "data: A\ndata: B" = parse "A") := by
  refine ⟨fun frame => find?_eq_head?_filter _ _, fun parse frame => ?_, fun parse => rfl⟩
  cases h : frameEvent parse frame with
  | none => simp [processFrames, h]
  | some ev =>
    by_cases hd : ev.done = some true ∨ ev.type = some "cancelled" <;>
      simp [processFrames, h, hd]

theorem finalTextOf_applyContent (bs : List StreamBlock) (c : String) :
    finalTextOf (applyContent bs c) = finalTextOf bs ++ c := by
  induction bs with
  | nil => simp [applyContent, finalTextOf]
  | cons b bs ih =>
    cases bs with
    | nil => cases b <;> simp [applyContent, finalTextOf]
    | cons b2 bs2 =>
      cases b <;> simp [applyContent, finalTextOf, ih, String.append_assoc]

theorem onEventTurn_textDelta (d : String) (st : TurnState) :
    onEventTurn (textDeltaEvent d) st
      = .ok (if jsLength d > 0 then
          { st with streamStatus := "streaming_text", blocks := applyContent st.blocks d }
        else st) := by
  simp [onEventTurn, textDeltaEvent, learnConvId, truthyError, typeBranch, contentBranch,
    doneBranch]

theorem string_of_jsLength_zero (d : String) (h : ¬ jsLength d > 0) : d = "" := by
  cases d with
  | mk l =>
    simp [jsLength] at h
    simp [h]

theorem runEvents_textDeltas (ds : List String) (st : TurnState) :
    finalTextOf (runEvents st (ds.map textDeltaEvent)).blocks
      = finalTextOf st.blocks ++ concatList ds := by
  induction ds generalizing st with
  | nil => simp [runEvents, concatList]
  | cons d ds ih =>
    simp only [List.map_cons, runEvents, onEventTurn_textDelta]
    simp only [textDeltaEvent]
    rw [if_neg (by simp), if_neg (by simp)]
    rw [ih]
    by_cases hd : jsLength d > 0
    · simp [hd, finalTextOf_applyContent, concatList, String.append_assoc]
    · have he : d = "" := string_of_jsLength_zero d hd
      subst he
      simp [hd, concatList]

/-- C6: for every sequence of text-delta records with non-empty content, the
flattened text of the accumulated blocks equals the concatenation of the
delta contents in arrival order. -/
theorem textDeltas_concat (ds : List String) (_h : ∀ d ∈ ds, d ≠ "") :
    finalTextOf (runEvents emptyTurn (ds.map textDeltaEvent)).blocks = concatList ds := by
  rw [runEvents_textDeltas ds emptyTurn]
  simp [emptyTurn, finalTextOf]

theorem textDeltas_concat_witness :
    finalTextOf (runEvents emptyTurn (["ab", "cd"].map textDeltaEvent)).blocks
      = concatList ["ab", "cd"] :=
  textDeltas_concat ["ab", "cd"] (by decide)

theorem replaceFirst?_eq_firstMatchIdx (p : StreamBlock → Bool)
    (f : StreamBlock → StreamBlock) (bs : List StreamBlock) :
    replaceFirst? p f bs = (firstMatchIdx p bs).map (fun i => modifyAt f i bs) := by
  induction bs with
  | nil => rfl
  | cons b bs ih =>
    by_cases h : p b
    · simp [replaceFirst?, firstMatchIdx, h, modifyAt]
    · simp only [replaceFirst?, firstMatchIdx, h, if_neg, Bool.false_eq_true,
        not_false_eq_true, ih, Option.map_map]
      cases firstMatchIdx p bs <;> simp [modifyAt, Function.comp]

/-- C7: the `tool_start` branch is exactly the first-match rule the spec
states (reuse the first non-completed block of the same name, else append),
and the sequence ToolStart(x), ToolStart(y), ToolStart(x) yields two tool
blocks, the third event reusing the first `x` block and overwriting its
arguments. -/
theorem toolStart_first_match :
    (∀ (name : String) (args : Option String) (bs : List StreamBlock),
        applyToolStart name args bs = toolStartSpec name args bs)
    ∧ (∀ a1 a2 a3 : Option String,
        runEvents emptyTurn
            [toolStartEvent "x" a1, toolStartEvent "y" a2, toolStartEvent "x" a3]
          = { convId := "", streamStatus := "tool_running", streamDone := false
              blocks := [.tool { tool_name := some "x", status := "running",
                                 arguments := a3, streaming_content := some "" },
                         .tool { tool_name := some "y", status := "running",
                                 arguments := a2, streaming_content := some "" }] }) := by
  constructor
  · intro name args bs
    unfold applyToolStart toolStartSpec
    rw [replaceFirst?_eq_firstMatchIdx]
    cases firstMatchIdx (isToolStartMatch name) bs <;> simp
  · intro a1 a2 a3
    rfl

/-- C5: the server-error path of the code is broken.  ChatScreen's
`onEvent` does throw on a record with a truthy `error` field, meaning to
abort the turn (first conjunct) — but in `streamChat` the `onEvent(parsed)`
call sits inside the same per-record `try/catch` that guards `JSON.parse`,
so the throw is swallowed: after the error record the loop simply continues
(second conjunct), `handleSendMessage`'s catch never runs, and at stream
end the partial content is committed as a normal assistant message with no
error-role message anywhere (third conjunct). -/
theorem server_error_swallowed :
    onEventTurn { error := some "boom" } emptyTurn = .error ("boom", emptyTurn)
    ∧ runEvents emptyTurn evsErrDone
        = { convId := "", blocks := [.text "hi"], streamStatus := "streaming_text",
            streamDone := true }
    ∧ finalizeSend (runEvents emptyTurn evsErrDone)
        = [Message.assistant "hi" (some [.text "hi"])] :=
  ⟨rfl, rfl, rfl⟩

theorem historyToolBlocks_eq_zipWith (jparse : String → Option Json)
    (tcs : List ToolCall) (tms : List ConversationMessage)
    (hlen : tms.length = tcs.length) (htool : ∀ tm ∈ tms, tm.role = "tool") :
    historyToolBlocks jparse tcs tms
      = List.zipWith (fun tc tm =>
          StreamBlock.tool { tool_name := some (toolCallName tc), status := "completed",
                             arguments := some (toolCallArgs tc),
                             result := some (parseToolResult jparse tm) }) tcs tms := by
  induction tcs generalizing tms with
  | nil => simp [historyToolBlocks]
  | cons tc tcs ih =>
    cases tms with
    | nil => simp at hlen
    | cons tm tms =>
      have hrole : tm.role = "tool" := htool tm (by simp)
      simp only [historyToolBlocks, List.head?_cons, List.tail_cons, List.zipWith]
      rw [ih tms (by simpa using hlen) (fun x hx => htool x (by simp [hx]))]
      simp [historyToolBlock, hrole]

theorem coalesceGo_group (jparse : String → Option Json) (ca : String)
    (tcs : List ToolCall) (tms : List ConversationMessage)
    (hlen : tms.length = tcs.length) (hpos : 0 < tcs.length) :
    coalesceGo jparse
        ({ role := "assistant", content := some ca, tool_calls := some tcs } :: tms) [] ""
      = ((if jsTrim ca ≠ "" then [StreamBlock.text (jsTrim ca)] else [])
            ++ historyToolBlocks jparse tcs tms,
         if jsTrim ca ≠ "" then jsTrim ca else "") := by
  have hdrop : tms.drop tcs.length = ([] : List ConversationMessage) := by
    rw [← hlen]
    exact List.drop_length _
  rw [coalesceGo]
  simp [hdrop, hpos, coalesceGo]

/-- C9 (amended): an assistant message with N ≥ 1 tool-call descriptors
followed by N tool messages flattens into one local assistant message whose
blocks are exactly one TextBlock — present iff the assistant's text is
non-blank after trimming, holding the trimmed text — followed by N completed
ToolBlocks pairing calls with results by position, each carrying the tool
name, arguments and the `parseToolResult` of its tool message (the JSON
parse of its content when that succeeds, the raw string when it fails, and
null when the content is blank). -/
theorem coalesce_assistant_turn_shape (jparse : String → Option Json) (ca : String)
    (tcs : List ToolCall) (tms : List ConversationMessage)
    (hlen : tms.length = tcs.length) (htool : ∀ tm ∈ tms, tm.role = "tool")
    (hne : tcs ≠ []) :
    coalesceAssistantTurn jparse
        ({ role := "assistant", content := some ca, tool_calls := some tcs } :: tms)
      = some (.assistant (if jsTrim ca ≠ "" then jsTrim ca else "(empty)")
          (some ((if jsTrim ca ≠ "" then [StreamBlock.text (jsTrim ca)] else [])
            ++ List.zipWith (fun tc tm =>
                StreamBlock.tool { tool_name := some (toolCallName tc), status := "completed",
                                   arguments := some (toolCallArgs tc),
                                   result := some (parseToolResult jparse tm) }) tcs tms))) := by
  have hpos : 0 < tcs.length := List.length_pos.mpr hne
  have hz := historyToolBlocks_eq_zipWith jparse tcs tms hlen htool
  unfold coalesceAssistantTurn
  rw [coalesceGo_group jparse ca tcs tms hlen hpos]
  have hlen2 : (List.zipWith (fun tc tm =>
      StreamBlock.tool { tool_name := some (toolCallName tc), status := "completed",
                         arguments := some (toolCallArgs tc),
                         result := some (parseToolResult jparse tm) }) tcs tms).length
      = tcs.length := by
    rw [List.length_zipWith, hlen]
    omega
  by_cases hca : jsTrim ca ≠ ""
  · simp [hca, hz, hlen2]
  · simp [hca, hz, hlen2]
    exact hne

theorem coalesce_assistant_turn_shape_witness :
    coalesceAssistantTurn jparse0
        ({ role := "assistant", content := some "hello", tool_calls := some [tcW] } :: [tmW])
      = some (.assistant (if jsTrim "hello" ≠ "" then jsTrim "hello" else "(empty)")
          (some ((if jsTrim "hello" ≠ "" then [StreamBlock.text (jsTrim "hello")] else [])
            ++ List.zipWith (fun tc tm =>
                StreamBlock.tool { tool_name := some (toolCallName tc), status := "completed",
                                   arguments := some (toolCallArgs tc),
                                   result := some (parseToolResult jparse0 tm) }) [tcW] [tmW]))) :=
  coalesce_assistant_turn_shape jparse0 "hello" [tcW] [tmW] rfl
    (by intro tm h; rw [List.mem_singleton] at h; subst h; rfl) (by simp)

/-- C9 counterexample: on an assistant message whose own text is a single
space (non-empty, but blank) with one tool call, followed by a tool message
whose content is two spaces (not valid JSON, and blank), the code produces
one completed tool block with a `null` result and no text block — whereas
the claim predicts a leading TextBlock (since the text is non-empty) and a
raw-string result (since the content is not valid JSON). -/
theorem coalesce_blank_text_cex :
    coalesceAssistantTurn jparse0 [aEx, tmEx]
      = some (.assistant "(empty)"
          (some [.tool { tool_name := some "t", status := "completed",
                         arguments := some "argstr", result := some Json.null }]))
    ∧ ([StreamBlock.tool { tool_name := some "t", status := "completed",
                           arguments := some "argstr", result := some Json.null }]
        ≠ [StreamBlock.text " ",
           StreamBlock.tool { tool_name := some "t", status := "completed",
                              arguments := some "argstr", result := some (Json.str "  ") }]) := by
  constructor
  · have h1 : jsTrim " " = "" := rfl
    have h2 : jsTrim "  " = "" := rfl
    simp [coalesceAssistantTurn, coalesceGo, aEx, tmEx, tcW, historyToolBlocks,
      historyToolBlock, parseToolResult, toolCallName, toolCallArgs, h1, h2]
  · simp

theorem getElem?_append_left_of_some (l1 l2 : List StreamBlock) (i : Nat) (b : StreamBlock)
    (h : l1[i]? = some b) : (l1 ++ l2)[i]? = some b := by
  have hlt : i < l1.length := (List.getElem?_eq_some.mp h).1
  rw [List.getElem?_append, if_pos hlt]
  exact h

theorem replaceFirst?_getElem? (p : StreamBlock → Bool) (f : StreamBlock → StreamBlock)
    (bs bs2 : List StreamBlock) (h : replaceFirst? p f bs = some bs2) (i : Nat)
    (b : StreamBlock) (hb : bs[i]? = some b) :
    bs2[i]? = some b ∨ (p b = true ∧ bs2[i]? = some (f b)) := by
  induction bs generalizing bs2 i with
  | nil => simp [replaceFirst?] at h
  | cons a bs ih =>
    rw [replaceFirst?] at h
    by_cases hp : p a
    · rw [if_pos hp] at h
      injection h with h
      subst h
      cases i with
      | zero =>
        rw [List.getElem?_cons_zero] at hb
        injection hb with hb
        subst hb
        right
        exact ⟨hp, by rw [List.getElem?_cons_zero]⟩
      | succ n =>
        rw [List.getElem?_cons_succ] at hb
        left
        rw [List.getElem?_cons_succ]
        exact hb
    · rw [if_neg hp] at h
      cases hrf : replaceFirst? p f bs with
      | none => simp [hrf] at h
      | some t2 =>
        rw [hrf] at h
        injection h with h
        subst h
        cases i with
        | zero =>
          rw [List.getElem?_cons_zero] at hb
          left
          rw [List.getElem?_cons_zero, hb]
        | succ n =>
          rw [List.getElem?_cons_succ] at hb
          have := ih t2 hrf n hb
          rcases this with h1 | ⟨h1, h2⟩
          · left
            rw [List.getElem?_cons_succ]
            exact h1
          · right
            exact ⟨h1, by rw [List.getElem?_cons_succ]; exact h2⟩

theorem replaceLast?_getElem? (p : StreamBlock → Bool) (f : StreamBlock → StreamBlock)
    (bs bs2 : List StreamBlock) (h : replaceLast? p f bs = some bs2) (i : Nat)
    (b : StreamBlock) (hb : bs[i]? = some b) :
    bs2[i]? = some b ∨ (p b = true ∧ bs2[i]? = some (f b)) := by
  induction bs generalizing bs2 i with
  | nil => simp [replaceLast?] at h
  | cons a bs ih =>
    rw [replaceLast?] at h
    cases hrl : replaceLast? p f bs with
    | some t2 =>
      rw [hrl] at h
      injection h with h
      subst h
      cases i with
      | zero =>
        rw [List.getElem?_cons_zero] at hb
        left
        rw [List.getElem?_cons_zero, hb]
      | succ n =>
        rw [List.getElem?_cons_succ] at hb
        have := ih t2 hrl n hb
        rcases this with h1 | ⟨h1, h2⟩
        · left
          rw [List.getElem?_cons_succ]
          exact h1
        · right
          exact ⟨h1, by rw [List.getElem?_cons_succ]; exact h2⟩
    | none =>
      rw [hrl] at h
      by_cases hp : p a
      · rw [if_pos hp] at h
        injection h with h
        subst h
        cases i with
        | zero =>
          rw [List.getElem?_cons_zero] at hb
          injection hb with hb
          subst hb
          right
          exact ⟨hp, by rw [List.getElem?_cons_zero]⟩
        | succ n =>
          rw [List.getElem?_cons_succ] at hb
          left
          rw [List.getElem?_cons_succ]
          exact hb
      · rw [if_neg hp] at h
        simp at h

theorem statusAt_eq_some (bs : List StreamBlock) (i : Nat) (s : String) :
    statusAt bs i = some s
      ↔ ∃ t : ToolBlock, bs[i]? = some (.tool t) ∧ t.status = s := by
  unfold statusAt
  cases hb : bs[i]? with
  | none => simp
  | some b => cases b <;> simp

theorem applyToolStart_statusAt (name : String) (args : Option String)
    (bs : List StreamBlock) (i : Nat) (s : String) (h : statusAt bs i = some s) :
    statusAt (applyToolStart name args bs) i = some s
    ∨ (s ≠ "completed" ∧ statusAt (applyToolStart name args bs) i = some "running") := by
  obtain ⟨t, hb, hs⟩ := (statusAt_eq_some bs i s).mp h
  unfold applyToolStart
  cases hrf : replaceFirst? (isToolStartMatch name) (restartTool args) bs with
  | some bs2 =>
    rcases replaceFirst?_getElem? _ _ bs bs2 hrf i _ hb with h1 | ⟨hp, h1⟩
    · left
      exact (statusAt_eq_some _ i s).mpr ⟨t, h1, hs⟩
    · right
      have hnc : t.status ≠ "completed" := by
        simp [isToolStartMatch] at hp
        exact hp.2
      refine ⟨by rw [← hs]; exact hnc, ?_⟩
      exact (statusAt_eq_some _ i _).mpr
        ⟨{ t with status := "running", arguments := args, streaming_content := some "" }, h1, rfl⟩
  | none =>
    left
    exact (statusAt_eq_some _ i s).mpr ⟨t, getElem?_append_left_of_some bs _ i _ hb, hs⟩

theorem applyToolStream_statusAt (name : String) (chunk : String)
    (bs : List StreamBlock) (i : Nat) (s : String) (h : statusAt bs i = some s) :
    statusAt (applyToolStream name chunk bs) i = some s := by
  obtain ⟨t, hb, hs⟩ := (statusAt_eq_some bs i s).mp h
  unfold applyToolStream
  cases hrl : replaceLast? (isToolStreamMatch name) (appendChunk chunk) bs with
  | some bs2 =>
    rcases replaceLast?_getElem? _ _ bs bs2 hrl i _ hb with h1 | ⟨_, h1⟩
    · exact (statusAt_eq_some _ i s).mpr ⟨t, h1, hs⟩
    · exact (statusAt_eq_some _ i s).mpr
        ⟨{ t with streaming_content := some ((t.streaming_content.getD "") ++ chunk) }, h1, hs⟩
  | none => exact h

theorem applyToolResult_statusAt (name : Option String) (result : Option Json)
    (bs : List StreamBlock) (i : Nat) (s : String) (h : statusAt bs i = some s) :
    statusAt (applyToolResult name result bs) i = some s
    ∨ statusAt (applyToolResult name result bs) i = some "completed" := by
  obtain ⟨t, hb, hs⟩ := (statusAt_eq_some bs i s).mp h
  unfold applyToolResult
  cases hrl : replaceLast? (isToolNameMatch name) (completeTool result) bs with
  | some bs2 =>
    rcases replaceLast?_getElem? _ _ bs bs2 hrl i _ hb with h1 | ⟨_, h1⟩
    · left
      exact (statusAt_eq_some _ i s).mpr ⟨t, h1, hs⟩
    · right
      exact (statusAt_eq_some _ i _).mpr
        ⟨{ t with status := "completed", result := result }, h1, rfl⟩
  | none =>
    left
    exact h

theorem applySafety_statusAt (ev : ChatStreamEvent) (convId : String)
    (bs : List StreamBlock) (i : Nat) (s : String) (h : statusAt bs i = some s) :
    statusAt (applySafety ev convId bs) i = some s
    ∨ statusAt (applySafety ev convId bs) i = some "awaiting_confirmation" := by
  obtain ⟨t, hb, hs⟩ := (statusAt_eq_some bs i s).mp h
  cases hrl : replaceLast? (isToolNameMatch ev.tool_name) (awaitTool ev convId) bs with
  | some bs2 =>
    have hred : applySafety ev convId bs = bs2 := by
      unfold applySafety
      rw [hrl]
    rw [hred]
    rcases replaceLast?_getElem? _ _ bs bs2 hrl i _ hb with h1 | ⟨_, h1⟩
    · left
      exact (statusAt_eq_some _ i s).mpr ⟨t, h1, hs⟩
    · right
      exact (statusAt_eq_some _ i _).mpr
        ⟨{ t with status := "awaiting_confirmation",
                  arguments := jsNullish ev.command ev.arguments,
                  review_id := ev.review_id,
                  conversation_id := some (jsStringOr ev.conversation_id convId),
                  review := ev.review, command := ev.command, cwd := ev.cwd }, h1, rfl⟩
  | none =>
    have hred : applySafety ev convId bs
        = bs ++ [.tool { tool_name := ev.tool_name
                         status := "awaiting_confirmation"
                         review_id := ev.review_id
                         conversation_id := some (jsStringOr ev.conversation_id convId)
                         review := ev.review
                         command := ev.command
                         cwd := ev.cwd }] := by
      unfold applySafety
      rw [hrl]
    rw [hred]
    left
    exact (statusAt_eq_some _ i s).mpr ⟨t, getElem?_append_left_of_some bs _ i _ hb, hs⟩

theorem applyContent_statusAt (bs : List StreamBlock) (c : String) (i : Nat) (s : String)
    (h : statusAt bs i = some s) : statusAt (applyContent bs c) i = some s := by
  induction bs generalizing i with
  | nil => simp [statusAt] at h
  | cons b bs ih =>
    cases bs with
    | nil =>
      cases b with
      | text t =>
        cases i with
        | zero => simp [statusAt] at h
        | succ n => simp [statusAt] at h
      | tool t =>
        cases i with
        | zero => simpa [applyContent, statusAt] using h
        | succ n => simp [statusAt] at h
    | cons b2 bs2 =>
      cases i with
      | zero => simpa [applyContent, statusAt] using h
      | succ n =>
        have hh : statusAt (b2 :: bs2) n = some s := by simpa [statusAt] using h
        simpa [applyContent, statusAt] using ih n hh

theorem learnConvId_blocks (ev : ChatStreamEvent) (st : TurnState) :
    (learnConvId ev st).blocks = st.blocks := by
  unfold learnConvId
  cases ev.conversation_id with
  | none => rfl
  | some c =>
    dsimp only
    split <;> rfl

theorem doneBranch_blocks (ev : ChatStreamEvent) (st : TurnState) :
    (doneBranch ev st).blocks = st.blocks := by
  unfold doneBranch
  split <;> rfl

theorem contentBranch_statusAt (ev : ChatStreamEvent) (st : TurnState) (i : Nat) (s : String)
    (h : statusAt st.blocks i = some s) :
    statusAt (contentBranch ev st).blocks i = some s := by
  unfold contentBranch
  cases ev.content with
  | none => exact h
  | some c =>
    dsimp only
    split
    · exact applyContent_statusAt _ _ _ _ h
    · exact h

theorem typeBranch_statusAt (ev : ChatStreamEvent) (st : TurnState) (i : Nat) (s : String)
    (h : statusAt st.blocks i = some s) :
    statusAt (typeBranch ev st).blocks i = some s
    ∨ (ev.type = some "tool_start" ∧ s ≠ "completed"
        ∧ statusAt (typeBranch ev st).blocks i = some "running")
    ∨ (ev.type = some "tool_result"
        ∧ statusAt (typeBranch ev st).blocks i = some "completed")
    ∨ (ev.type = some "safety_confirmation_required"
        ∧ statusAt (typeBranch ev st).blocks i = some "awaiting_confirmation") := by
  unfold typeBranch
  split
  · left; exact h
  · left; exact h
  · rename_i heq
    rcases applyToolStart_statusAt (jsStringOr ev.tool_name "unknown") ev.arguments
        st.blocks i s h with h1 | ⟨h1, h2⟩
    · left; exact h1
    · right; left; exact ⟨heq, h1, h2⟩
  · dsimp only
    split
    · left; exact applyToolStream_statusAt _ _ _ _ _ h
    · left; exact h
  · rename_i heq
    rcases applyToolResult_statusAt ev.tool_name ev.result st.blocks i s h with h1 | h1
    · left; exact h1
    · right; right; left; exact ⟨heq, h1⟩
  · rename_i heq
    rcases applySafety_statusAt ev st.convId st.blocks i s h with h1 | h1
    · left; exact h1
    · right; right; right; exact ⟨heq, h1⟩
  · left; exact h

/-- C1 (amended): per accumulator event, the status of a tool block either
stays unchanged, or is set to `running` by a `tool_start` event (only
possible when the block was not `completed`), to `completed` by a
`tool_result` event, or to `awaiting_confirmation` by a
`safety_confirmation_required` event.  The forward-only invariant fails: a
`tool_start` may move a block from `awaiting_confirmation` back to
`running`, and a `safety_confirmation_required` may move a `completed`
block back to `awaiting_confirmation` (see the counterexample). -/
theorem toolBlockStatus_step (ev : ChatStreamEvent) (st st2 : TurnState)
    (h : onEventTurn ev st = .ok st2) (i : Nat) (s s2 : String)
    (h1 : statusAt st.blocks i = some s) (h2 : statusAt st2.blocks i = some s2) :
    s2 = s
    ∨ (ev.type = some "tool_start" ∧ s ≠ "completed" ∧ s2 = "running")
    ∨ (ev.type = some "tool_result" ∧ s2 = "completed")
    ∨ (ev.type = some "safety_confirmation_required" ∧ s2 = "awaiting_confirmation") := by
  unfold onEventTurn at h
  cases hte : truthyError ev with
  | some m =>
    rw [hte] at h
    exact absurd h (by simp)
  | none =>
    rw [hte] at h
    injection h with h
    subst h
    rw [show statusAt (doneBranch ev (contentBranch ev (typeBranch ev (learnConvId ev st)))).blocks i
          = statusAt (contentBranch ev (typeBranch ev (learnConvId ev st))).blocks i from by
        rw [doneBranch_blocks]] at h2
    have hl : statusAt (learnConvId ev st).blocks i = some s := by
      rw [learnConvId_blocks]
      exact h1
    rcases typeBranch_statusAt ev (learnConvId ev st) i s hl with hm | ⟨he, hne, hm⟩ | ⟨he, hm⟩ | ⟨he, hm⟩
    · left
      have hc := contentBranch_statusAt ev _ i _ hm
      rw [hc] at h2
      exact (Option.some.inj h2).symm
    · right; left
      have hc := contentBranch_statusAt ev _ i _ hm
      rw [hc] at h2
      exact ⟨he, hne, (Option.some.inj h2).symm⟩
    · right; right; left
      have hc := contentBranch_statusAt ev _ i _ hm
      rw [hc] at h2
      exact ⟨he, (Option.some.inj h2).symm⟩
    · right; right; right
      have hc := contentBranch_statusAt ev _ i _ hm
      rw [hc] at h2
      exact ⟨he, (Option.some.inj h2).symm⟩

theorem toolBlockStatus_step_witness :
    ("completed" : String) = "running"
    ∨ (evResultX.type = some "tool_start" ∧ ("running" : String) ≠ "completed"
        ∧ ("completed" : String) = "running")
    ∨ (evResultX.type = some "tool_result" ∧ ("completed" : String) = "completed")
    ∨ (evResultX.type = some "safety_confirmation_required"
        ∧ ("completed" : String) = "awaiting_confirmation") :=
  toolBlockStatus_step evResultX
    { convId := "", blocks := [.tool { tool_name := some "x", status := "running",
                                       streaming_content := some "" }],
      streamStatus := "tool_running", streamDone := false }
    { convId := "", blocks := [.tool { tool_name := some "x", status := "completed",
                                       streaming_content := some "" }],
      streamStatus := "tool_result", streamDone := false }
    rfl 0 "running" "completed" rfl rfl

/-- C1 counterexample: from the empty turn, ToolStart(x) makes the block
`running`, ToolResult(x) makes it `completed`, a following
SafetyRequired(x) moves it back to `awaiting_confirmation` (its search
matches any status), and a further ToolStart(x) moves it back to `running`
(its search matches any non-completed status) — two backward transitions,
refuting the forward-only invariant. -/
theorem status_regression_cex :
    statusAt (blocksAfter [evStartX]) 0 = some "running"
    ∧ statusAt (blocksAfter [evStartX, evResultX]) 0 = some "completed"
    ∧ statusAt (blocksAfter [evStartX, evResultX, evSafetyX]) 0 = some "awaiting_confirmation"
    ∧ statusAt (blocksAfter [evStartX, evResultX, evSafetyX, evStartX]) 0 = some "running" :=
  ⟨rfl, rfl, rfl, rfl⟩

end FlopsMobile
